import Mathlib

/-!
Verification development for the `astromatic_wrapper` repository.

The development shallowly embeds the parts of the package that the
checked claims are about:

* `astromatic_wrapper/utils/utils.py` — `str_2_bool`, `get_bool`,
  `create_paths` and `check_path`, embedded directly from the source.
  Filesystem existence and the interactive input stream are explicit
  parameters of the embedding.
* `astromatic_wrapper/utils/ldac.py` — the LDAC conversion functions,
  embedded directly from the source.  FITS file I/O performed through
  astropy is out of scope for the package (an external collaborator with
  a stable contract), and is modelled by that contract: writing an
  astropy table produces a primary HDU followed by a single binary-table
  HDU holding the table.
* the pipeline execution engine and the command builder, which live in
  `astromatic_wrapper/utils/pipeline.py` and `astromatic_wrapper/api.py`.
  These modules are exercised by the test-suite but their sources are
  not available; they are modelled from the specification, as marked in
  the corresponding doc comments.
-/

/-! ## utils.py -/

/-- Python's `str.lower`, character by character (the inputs compared by
`str_2_bool` are ASCII, where this agrees with Python). -/
def pyLower (s : String) : String :=
  ⟨s.data.map Char.toLower⟩

/-- Python's `s.startswith(pre)`: `pre` is a prefix of `s`. -/
def pyStartsWith (s pre : String) : Bool :=
  pre.data.isPrefixOf s.data

/-- Translation of `utils.str_2_bool` (utils.py lines 21-39).
`AstromaticError` is rendered as the `Except.error` branch carrying the
message. -/
def str_2_bool (bool_str : String) : Except String Bool :=
  let lower_str := pyLower bool_str
  if pyStartsWith "true" lower_str || pyStartsWith "yes" lower_str then
    Except.ok true
  else if pyStartsWith "false" lower_str || pyStartsWith "no" lower_str then
    Except.ok false
  else
    Except.error ("'" ++ bool_str ++ "' did not match a boolean expression " ++
      " (true/false, yes/no, t/f, y/n)")

/-- Translation of `utils.get_bool` (utils.py lines 41-53): prompt the user
until a valid boolean expression is entered.  The interactive input stream
is the explicit list `answers`; each invalid answer is consumed and the
prompt repeats.  An exhausted stream (the source would keep prompting
forever) yields `none`. -/
def get_bool (answers : List String) : Option Bool :=
  match answers with
  | [] => none
  | a :: rest =>
    match str_2_bool a with
    | Except.ok b => some b
    | Except.error _ => get_bool rest

/-- Outcome of `utils.check_path`: the path already existed or was created
(`ok created`), an `AstromaticError` was raised (`err`), or the interactive
input stream was exhausted (`blocked`). -/
inductive CheckPathResult where
  | ok (created : Bool)
  | err (msg : String)
  | blocked
deriving Repr, DecidableEq

/-- Translation of `utils.check_path` (utils.py lines 77-93).  The
filesystem is modelled by the explicit flag `pathExists`
(`os.path.exists(path)`), and the interactive input consumed by
`get_bool` by the stream `answers`.  Note that the source body never
reads its ` auto_create` parameter: a missing path always triggers the
interactive prompt. -/
def check_path (path : String) (pathExists : Bool) ( auto_create : Bool)
    (answers : List String) : CheckPathResult :=
  if pathExists then CheckPathResult.ok false
  else
    match get_bool answers with
    | some true => CheckPathResult.ok true
    | some false => CheckPathResult.err (path ++ " does not exist")
    | none => CheckPathResult.blocked

/-! ## ldac.py -/

/-- An astropy table: ordered column names together with the rows of the
table.  The entries themselves are opaque to the conversion code; integer
cells are enough for the claims. -/
structure Table where
  colnames : List String
  rows : List (List Int)
deriving Repr, DecidableEq

/-- A binary-table HDU: optional `EXTNAME` header card, the remaining
header cards, and the table data. -/
structure BinTable where
  extname : Option String
  hdr : List String
  data : Table
deriving Repr, DecidableEq

/-- A FITS header-data unit. -/
inductive HDU where
  | primary
  | bintable (b : BinTable)
deriving Repr, DecidableEq

/-- The header cards astropy generates for a binary table written from a
table (column descriptions). -/
def headerCardsOf (tbl : Table) : List String :=
  tbl.colnames

/-- Modelled from the spec: FITS I/O is out of scope (§1, an external
collaborator "specified only via their consumed interface").  The stable
contract of `tbl.write(f, format='fits')` followed by `fits.open(f)`
(ldac.py lines 51-54) is an HDU list holding a primary HDU and one
binary-table HDU that carries the table. -/
def tableToFits (tbl : Table) : List HDU :=
  [HDU.primary, HDU.bintable ⟨none, headerCardsOf tbl, tbl⟩]

/-- Translation of `ldac.convert_hdu_to_ldac` (ldac.py lines 8-34):
`tbl1` is the `LDAC_IMHEAD` table echoing the header of `hdu` as a single
`Field Header Card` column, `tbl2` is the `LDAC_OBJECTS` table built from
`hdu.data`. -/
def convert_hdu_to_ldac (hdu : BinTable) : BinTable × BinTable :=
  (⟨some "LDAC_IMHEAD", hdu.hdr, ⟨["Field Header Card"], []⟩⟩,
   ⟨some "LDAC_OBJECTS", hdu.hdr, hdu.data⟩)

/-- Translation of `ldac.convert_table_to_ldac` (ldac.py lines 36-58):
write `tbl` to a temporary FITS file, convert `hdulist[1]` and return
`[hdulist[0], tbl1, tbl2]`.  Under the modelled astropy contract the
written list always has the shape of the first branch. -/
def convert_table_to_ldac (tbl : Table) : List HDU :=
  match tableToFits tbl with
  | [h0, HDU.bintable b] =>
    let tbls := convert_hdu_to_ldac b
    [h0, HDU.bintable tbls.1, HDU.bintable tbls.2]
  | l => l

/-- Translation of `ldac.save_table_as_ldac` (ldac.py lines 60-74): the
saved file's content is the converted HDU list. -/
def save_table_as_ldac (tbl : Table) : List HDU :=
  convert_table_to_ldac tbl

/-- `astropy.table.Table.read(filename, hdu=frame)`: read the table held
by the HDU at index `frame` of the file, if that HDU is a table. -/
def read_fits_table (hdus : List HDU) (frame : Int) : Option Table :=
  match hdus.get? frame.toNat with
  | some (HDU.bintable b) => some b.data
  | _ => none

/-- Translation of `ldac.get_table_from_ldac` (ldac.py lines 76-93): a
positive frame index is doubled, then the table is read from that HDU. -/
def get_table_from_ldac (hdus : List HDU) (frame : Int) : Option Table :=
  let frame2 := if frame > 0 then frame * 2 else frame
  read_fits_table hdus frame2

/-! ## Pipeline execution engine

Modelled from the spec: the module `astromatic_wrapper/utils/pipeline.py`
holding the `Pipeline` class (the one the test-suite imports as
`astromatic_wrapper.utils.pipeline`) is absent from the sources; only its
tests are available.  The data model follows spec §3, registration §4.4
and the execution engine §4.5.  The unrelated legacy file
`astromatic_wrapper/pipeline.py` (never imported by the package and not
syntactically valid Python) agrees with this model on step registration
and on the tag-selection predicate. -/

/-- Keyword arguments of a step, opaque to the engine (spec §3). -/
abbrev Kwargs : Type := List (String × Int)

/-- Status carried by every invocation result (spec §3). -/
inductive Status where
  | success
  | error
deriving Repr, DecidableEq

/-- A row of a warnings sub-table, opaque to the engine. -/
abbrev WRow : Type := String

/-- The uniform result record returned by a step (spec §3,
`InvocationResult`): a status, an optional warnings sub-table, the
originating filename (result metadata used to tag warnings) and an
optional error message. -/
structure StepResult where
  status : Status
  warnings : Option (List WRow)
  filename : String
  error_msg : Option String
deriving Repr, DecidableEq

/-- What invoking a step's callable can do: return a structured result,
or signal a fault (an uncaught exception). -/
inductive StepOutcome where
  | ok (r : StepResult)
  | exn (msg : String)
deriving Repr, DecidableEq

/-- The data of the pipeline instance that a step's callable can read
(spec §4.5: the callable is invoked with the pipeline instance, the step
id and the stored keyword arguments).  Restricting the view to the
pipeline's non-functional data keeps the embedding well-founded. -/
structure PipeInfo where
  next_id : Nat
  run_step_idx : Nat
  paths : List (String × String)
deriving Repr, DecidableEq

/-- The type of a step's callable. -/
abbrev StepFunc : Type := PipeInfo → Nat → Kwargs → StepOutcome

/-- A registered pipeline step (spec §3, `PipelineStep`): callable,
integer id, tags, keyword arguments and the nullable last-run result. -/
structure PipelineStep where
  func : StepFunc
  step_id : Nat
  tags : List String
  func_kwargs : Kwargs
  results : Option StepResult

/-- A warnings row after aggregation, tagged with the originating
filename and the id of the step that produced it (spec §4.5). -/
structure TaggedRow where
  row : WRow
  filename : String
  step : Nat
deriving Repr, DecidableEq

/-- The pipeline (spec §3): ordered steps, the next-id counter, the
accumulated warnings table (nullable), the run cursor and the
filesystem paths. -/
structure Pipeline where
  steps : List PipelineStep
  next_id : Nat
  run_warnings : Option (List TaggedRow)
  run_step_idx : Nat
  paths : List (String × String)

/-- A freshly constructed pipeline (`test_empty_init`): no steps, the
id counter at zero, no warnings, the cursor at zero. -/
def emptyPipeline : Pipeline :=
  ⟨[], 0, none, 0, []⟩

/-- The view of a pipeline passed to step callables. -/
def infoOf (p : Pipeline) : PipeInfo :=
  ⟨p.next_id, p.run_step_idx, p.paths⟩

/-- Registration of a resolved callable (spec §4.4 and the legacy
source's `add_step`, pipeline.py lines 444-451): the new step receives
the current value of the next-id counter, the counter is incremented,
and the step is appended with no stored result. -/
def add_step_func (p : Pipeline) (func : StepFunc) (tags : List String)
    (kwargs : Kwargs) : Pipeline :=
  { p with
    steps := p.steps ++ [⟨func, p.next_id, tags, kwargs, none⟩],
    next_id := p.next_id + 1 }

/-- The argument accepted by `add_step`: a raw callable or a symbolic
tool name (spec §4.4). -/
inductive FuncArg where
  | callable (f : StepFunc)
  | name (s : String)

/-- Modelled from the spec: `api.codes`, the enumeration of built-in
tool identifiers (`astromatic_wrapper/api.py` is absent from the
sources).  Spec §2 and §4.3 name the four AstrOmatic tools. -/
def codes : List String :=
  ["SExtractor", "SCAMP", "SWarp", "PSFEx"]

/-- Modelled from the spec: the built-in runner for a tool
(`api.py` is absent from the sources).  Only the runner's identity
matters for registration; its result is a placeholder. -/
def builtinRunner (tool : String) : StepFunc :=
  fun _ _ _ => StepOutcome.ok ⟨Status.success, none, tool, none⟩

/-- Resolution of the `func` argument of `add_step` (spec §4.4): a
callable is accepted as is, a known symbolic tool name resolves to the
tool's built-in runner, any other string is a configuration error. -/
def resolve_func : FuncArg → Except String StepFunc
  | FuncArg.callable f => Except.ok f
  | FuncArg.name s =>
    if codes.contains s then Except.ok (builtinRunner s)
    else Except.error ("You must either pass a function for the pipeline " ++
      "to run or the name of an astromatic code")

/-- `Pipeline.add_step` (spec §4.4): resolve the `func` argument and
register the step; an unrecognized symbolic name raises `PipelineError`
and registers nothing. -/
def add_step (p : Pipeline) (fa : FuncArg) (tags : List String)
    (kwargs : Kwargs) : Except String Pipeline :=
  match resolve_func fa with
  | Except.error e => Except.error e
  | Except.ok f => Except.ok (add_step_func p f tags kwargs)

/-- A sequence of `add_step` registrations (callable, tags, kwargs). -/
structure AddSpec where
  func : StepFunc
  tags : List String
  kwargs : Kwargs

/-- Folding a sequence of `add_step` calls over a pipeline. -/
def foldAdd (p : Pipeline) : List AddSpec → Pipeline
  | [] => p
  | sp :: rest => foldAdd (add_step_func p sp.func sp.tags sp.kwargs) rest

/-- The steps appended by a sequence of registrations starting from
next-id counter value `n`. -/
def newStepsFrom (n : Nat) : List AddSpec → List PipelineStep
  | [] => []
  | sp :: rest => ⟨sp.func, n, sp.tags, sp.kwargs, none⟩ :: newStepsFrom (n + 1) rest

/-- Step selection (spec §4.5): a step runs iff `run_tags` is empty or
one of the step's tags is in `run_tags`, and none of the step's tags is
in `ignore_tags`. -/
def selectStep (run_tags ignore_tags : List String) (s : PipelineStep) : Bool :=
  (run_tags.isEmpty || s.tags.any (fun t => run_tags.contains t)) &&
  !(s.tags.any (fun t => ignore_tags.contains t))

/-- Terminal report of a run (spec §4.5 state machine): `completed`,
`haltedOnError` with the failing step's result and the warnings
accumulated so far, or `haltedOnException` with the propagated fault. -/
inductive RunOutcome where
  | completed (warnings : Option (List TaggedRow))
  | haltedOnError (failed : StepResult) (warnings : Option (List TaggedRow))
  | haltedOnException (msg : String)
deriving Repr, DecidableEq

/-- The record produced by a run: the final pipeline, the outcome, the
successive checkpoint snapshots written to the fixed checkpoint file
(in write order, each overwriting its predecessor) and the ids of the
steps that were invoked. -/
structure RunResult where
  pipe : Pipeline
  outcome : RunOutcome
  checkpoints : List Pipeline
  executed : List Nat

/-- Store a step result on the step with the given id (spec §4.5: store
the raw return value on the step). -/
def storeResult (p : Pipeline) (sid : Nat) (r : StepResult) : Pipeline :=
  { p with
    steps := p.steps.map (fun s =>
      if s.step_id == sid then
        { s with results := some r }
      else s) }

/-- Tag each warnings row with the originating filename and step id
(spec §4.5). -/
def tagWarnings (filename : String) (sid : Nat) (w : List WRow) : List TaggedRow :=
  w.map (fun row => ⟨row, filename, sid⟩)

/-- Append rows to the nullable accumulated warnings table
(`astropy.table.vstack` on the accumulated table). -/
def vstackWarnings (acc : Option (List TaggedRow)) (more : List TaggedRow) :
    Option (List TaggedRow) :=
  match acc with
  | none => some more
  | some ws => some (ws ++ more)

/-- Apply a step's returned result to the pipeline: store it on the step
and, if it contains a warnings sub-table, append the tagged rows to the
accumulated warnings (spec §4.5). -/
def applyResult (p : Pipeline) (s : PipelineStep) (r : StepResult) : Pipeline :=
  let p1 := storeResult p s.step_id r
  match r.warnings with
  | none => p1
  | some w =>
    { p1 with
      run_warnings := vstackWarnings p1.run_warnings (tagWarnings r.filename s.step_id w) }

/-- One transition of the engine on the selected step `s` (spec §4.5):
invoke the callable with the pipeline view, the step id and the stored
keyword arguments; apply the result; decide whether to halt.  Returns
the pipeline state to be checkpointed together with the halting outcome,
if any.  A tolerated error (`ignore_errors`) and a tolerated fault
(`ignore_exceptions`, stored as an error result) advance the cursor; a
halting step leaves the cursor pointing at it. -/
def execStep (ignore_errors ignore_exceptions : Bool) (p : Pipeline)
    (s : PipelineStep) : Pipeline × Option RunOutcome :=
  match s.func (infoOf p) s.step_id s.func_kwargs with
  | StepOutcome.exn msg =>
    if ignore_exceptions then
      let p1 := storeResult p s.step_id ⟨Status.error, none, "", some msg⟩
      ({ p1 with run_step_idx := p1.run_step_idx + 1 }, none)
    else
      (p, some (RunOutcome.haltedOnException msg))
  | StepOutcome.ok r =>
    let p1 := applyResult p s r
    if r.status == Status.error && !ignore_errors then
      (p1, some (RunOutcome.haltedOnError r p1.run_warnings))
    else
      ({ p1 with run_step_idx := p1.run_step_idx + 1 }, none)

/-- The engine's loop over the selected steps (spec §4.5): execute each
step in order, persist a checkpoint of the entire pipeline state after
every step transition, and stop early on a halting step. -/
def runLoop (ignore_errors ignore_exceptions : Bool) (p : Pipeline)
    (ckpts : List Pipeline) (execed : List Nat) :
    List PipelineStep → RunResult
  | [] => ⟨p, RunOutcome.completed p.run_warnings, ckpts, execed⟩
  | s :: rest =>
    let next := execStep ignore_errors ignore_exceptions p s
    match next.2 with
    | some o => ⟨next.1, o, ckpts ++ [next.1], execed ++ [s.step_id]⟩
    | none =>
      runLoop ignore_errors ignore_exceptions next.1
        (ckpts ++ [next.1]) (execed ++ [s.step_id]) rest

/-- `Pipeline.run` (spec §4.5): compute the selected steps once at run
start, reset the cursor, and execute the selection in order. -/
def run (run_tags ignore_tags : List String)
    (ignore_errors ignore_exceptions : Bool) (p : Pipeline) : RunResult :=
  let sel := p.steps.filter (selectStep run_tags ignore_tags)
  runLoop ignore_errors ignore_exceptions
    { p with run_step_idx := 0 } [] [] sel

/-- Results stored on the (first) step with the given id: `none` when no
such step exists, otherwise the step's nullable stored result. -/
def stepResults (p : Pipeline) (sid : Nat) : Option (Option StepResult) :=
  (p.steps.find? (fun s => s.step_id == sid)).map PipelineStep.results

/-! ## Command builder

Modelled from the spec: `api.Astromatic.build_cmd` lives in
`astromatic_wrapper/api.py`, which is absent from the sources; only its
test (`test_api.py::test_build_cmd`) is available.  The contract follows
spec §4.1 and §6: `<executable> <file-args> [-c <config-file>]
[-<KEY> <value>]...`, configuration entries in insertion order, booleans
encoded as the tokens `Y`/`N`. -/

/-- A configuration value: a plain string or a boolean. -/
inductive ConfigVal where
  | str (s : String)
  | boolean (b : Bool)
deriving Repr, DecidableEq

/-- Serialization of one configuration value onto the command line
(spec §6: `True` becomes `Y`, `False` becomes `N`). -/
def serialize_val : ConfigVal → String
  | ConfigVal.str s => s
  | ConfigVal.boolean b => if b then "Y" else "N"

/-- The token sequence of the built command (spec §4.1, §6): executable,
file arguments, the `-c <config-file>` pair when a static config file is
supplied, then `-<KEY> <value>` for every configuration entry in the
mapping's insertion order. -/
def build_cmd (cmd : String) (files : List String) (config_file : Option String)
    (config : List (String × ConfigVal)) : List String :=
  [cmd] ++ files ++
  (match config_file with
   | some c => ["-c", c]
   | none => []) ++
  config.flatMap (fun kv => ["-" ++ kv.1, serialize_val kv.2])

/-! ## Concrete steps and pipelines used to evaluate the theorems -/

/-- A successful result with no warnings. -/
def okResult : StepResult := ⟨Status.success, none, "", none⟩

/-- A step callable that always succeeds. -/
def okFunc : StepFunc := fun _ _ _ => StepOutcome.ok okResult

/-- A structured error result, as produced by the division-by-zero test
step of the test-suite. -/
def errResult : StepResult := ⟨Status.error, none, "", some "Division by 0"⟩

/-- A step callable that returns a structured error result. -/
def errFunc : StepFunc := fun _ _ _ => StepOutcome.ok errResult

/-- A successful result carrying a two-row warnings sub-table with the
originating filename in its metadata. -/
def warnResult : StepResult :=
  ⟨Status.success, some ["w1", "w2"], "img.fits", none⟩

/-- A step callable that returns `warnResult`. -/
def warnFunc : StepFunc := fun _ _ _ => StepOutcome.ok warnResult

/-- A step tagged `A` and `B`, as in the spec's tag-filtering example. -/
def demoStep : PipelineStep := ⟨okFunc, 0, ["A", "B"], [], none⟩

/-- A pipeline holding only `demoStep`. -/
def demoPipe : Pipeline := ⟨[demoStep], 1, none, 0, []⟩

/-- An untagged step whose callable returns an error result. -/
def errStep : PipelineStep := ⟨errFunc, 7, [], [], none⟩

/-- An untagged step, registered after `errStep`. -/
def afterStep : PipelineStep := ⟨okFunc, 8, [], [], none⟩

/-- A pipeline whose first selected step fails. -/
def haltPipe : Pipeline := ⟨[errStep, afterStep], 9, none, 0, []⟩

/-- An untagged step whose callable succeeds. -/
def okStep : PipelineStep := ⟨okFunc, 5, [], [], none⟩

/-- A pipeline holding only `okStep`. -/
def ckptPipe : Pipeline := ⟨[okStep], 6, none, 0, []⟩

/-- An untagged step whose callable returns warnings. -/
def warnStep : PipelineStep := ⟨warnFunc, 3, [], [], none⟩

/-- A pipeline holding only `warnStep`. -/
def warnPipe : Pipeline := ⟨[warnStep], 4, none, 0, []⟩

/-- A small concrete catalog table. -/
def tdemo : Table := ⟨["MAG_AUTO"], [[1], [2]]⟩

/-! ## Helper lemmas -/

/-- Splitting a `flatMap` at a member of the list. -/
theorem flatMap_mem_split {α β : Type} (f : α → List β) :
    ∀ (l : List α) (a : α), a ∈ l →
    ∃ pre post, l.flatMap f = pre ++ f a ++ post := by
  intro l
  induction l with
  | nil => intro a ha; cases ha
  | cons hd tl ih =>
    intro a ha
    rw [List.mem_cons] at ha
    rcases ha with rfl | hmem
    · exact ⟨[], tl.flatMap f, by simp⟩
    · obtain ⟨pre, post, hsplit⟩ := ih a hmem
      exact ⟨f hd ++ pre, post, by simp [hsplit]⟩

/-- With both tolerance flags set the engine never halts: every remaining
step is executed, in order. -/
theorem runLoop_executed_all :
    ∀ (rem : List PipelineStep) (p : Pipeline) (ckpts : List Pipeline)
      (ex : List Nat),
    (runLoop true true p ckpts ex rem).executed
      = ex ++ rem.map PipelineStep.step_id := by
  intro rem
  induction rem with
  | nil => intro p ckpts ex; simp [runLoop]
  | cons s rest ih =>
    intro p ckpts ex
    cases hf : s.func (infoOf p) s.step_id s.func_kwargs with
    | exn msg =>
      simp [runLoop, execStep, hf, ih]
    | ok r =>
      simp [runLoop, execStep, hf, ih]

/-- The checkpoint trace of a run extends the already-written trace. -/
theorem runLoop_checkpoints_extend (ie iex : Bool) :
    ∀ (rem : List PipelineStep) (p : Pipeline) (ckpts : List Pipeline)
      (ex : List Nat),
    ∃ tail, (runLoop ie iex p ckpts ex rem).checkpoints = ckpts ++ tail := by
  intro rem
  induction rem with
  | nil => intro p ckpts ex; exact ⟨[], by simp [runLoop]⟩
  | cons s rest ih =>
    intro p ckpts ex
    cases hn : (execStep ie iex p s).2 with
    | some o =>
      refine ⟨[(execStep ie iex p s).1], ?_⟩
      simp [runLoop, hn]
    | none =>
      obtain ⟨tail, htail⟩ :=
        ih (execStep ie iex p s).1 (ckpts ++ [(execStep ie iex p s).1])
          (ex ++ [s.step_id])
      refine ⟨(execStep ie iex p s).1 :: tail, ?_⟩
      simp [runLoop, hn, htail]

/-- One checkpoint is written per executed step. -/
theorem runLoop_ckpt_length (ie iex : Bool) :
    ∀ (rem : List PipelineStep) (p : Pipeline) (ckpts : List Pipeline)
      (ex : List Nat),
    (runLoop ie iex p ckpts ex rem).checkpoints.length + ex.length
      = (runLoop ie iex p ckpts ex rem).executed.length + ckpts.length := by
  intro rem
  induction rem with
  | nil => intro p ckpts ex; simp [runLoop]; omega
  | cons s rest ih =>
    intro p ckpts ex
    cases hn : (execStep ie iex p s).2 with
    | some o =>
      simp [runLoop, hn]; omega
    | none =>
      have h := ih (execStep ie iex p s).1 (ckpts ++ [(execStep ie iex p s).1])
        (ex ++ [s.step_id])
      simp [runLoop, hn] at h ⊢
      omega

/-- The per-step update performed by `storeResult`. -/
def updStep (sid : Nat) (r : StepResult) (s : PipelineStep) : PipelineStep :=
  if s.step_id == sid then { s with results := some r } else s

/-- `updStep` never changes a step's id. -/
theorem updStep_id (sid : Nat) (r : StepResult) (s : PipelineStep) :
    (updStep sid r s).step_id = s.step_id := by
  unfold updStep
  by_cases h : s.step_id = sid <;> simp [h]

/-- `storeResult` maps `updStep` over the steps. -/
theorem storeResult_steps (p : Pipeline) (sid : Nat) (r : StepResult) :
    (storeResult p sid r).steps = p.steps.map (updStep sid r) := by
  rfl

/-- Updating a step with a different id does not change a lookup of the
stored results. -/
theorem find_results_upd_ne (sid sid' : Nat) (r : StepResult)
    (h : sid ≠ sid') :
    ∀ l : List PipelineStep,
    ((l.map (updStep sid' r)).find? (fun s => s.step_id == sid)).map
        PipelineStep.results
      = (l.find? (fun s => s.step_id == sid)).map PipelineStep.results := by
  intro l
  induction l with
  | nil => simp
  | cons s l ih =>
    by_cases hs : s.step_id = sid
    · have h1 : (updStep sid' r s) = s := by
        unfold updStep
        have : (s.step_id == sid') = false := by
          rw [hs]
          simpa using h
        simp [this]
      rw [List.map_cons, List.find?_cons_of_pos, List.find?_cons_of_pos]
      · rw [h1]
      · simp [hs]
      · rw [h1]
        simp [hs]
    · have h2 : ((updStep sid' r s).step_id == sid) = false := by
        rw [updStep_id]
        simpa using hs
      rw [List.map_cons, List.find?_cons_of_neg, List.find?_cons_of_neg]
      · exact ih
      · simpa using hs
      · simp [h2]

/-- Updating a present step makes its stored results the new result. -/
theorem find_results_upd_self (sid : Nat) (r : StepResult) :
    ∀ l : List PipelineStep,
    (l.find? (fun s => s.step_id == sid)).isSome = true →
    ((l.map (updStep sid r)).find? (fun s => s.step_id == sid)).map
        PipelineStep.results
      = some (some r) := by
  intro l
  induction l with
  | nil => simp
  | cons s l ih =>
    intro hsome
    by_cases hs : s.step_id = sid
    · have h1 : updStep sid r s = { s with results := some r } := by
        simp [updStep, hs]
      rw [List.map_cons, List.find?_cons_of_pos]
      · rw [h1]
        rfl
      · rw [h1]
        simp [hs]
    · have h2 : ((updStep sid r s).step_id == sid) = false := by
        rw [updStep_id]
        simpa using hs
      rw [List.map_cons, List.find?_cons_of_neg _ (by simp [h2])]
      rw [List.find?_cons_of_neg _ (by simpa using hs)] at hsome
      exact ih hsome

/-- Storing a result on one step leaves the stored results of steps with
a different id unchanged. -/
theorem stepResults_store_ne (p : Pipeline) (sid sid' : Nat) (r : StepResult)
    (h : sid ≠ sid') :
    stepResults (storeResult p sid' r) sid = stepResults p sid := by
  unfold stepResults
  rw [storeResult_steps]
  exact find_results_upd_ne sid sid' r h p.steps

/-- Storing a result on a present step updates its stored results. -/
theorem stepResults_store_self (p : Pipeline) (sid : Nat) (r : StepResult)
    (q : Option StepResult) (h : stepResults p sid = some q) :
    stepResults (storeResult p sid r) sid = some (some r) := by
  unfold stepResults
  rw [storeResult_steps]
  refine find_results_upd_self sid r p.steps ?_
  unfold stepResults at h
  rcases hfind : p.steps.find? (fun s => s.step_id == sid) with _ | s2
  · rw [hfind] at h
    simp at h
  · simp [hfind]

/-- `applyResult` only changes the steps through `storeResult`. -/
theorem applyResult_steps (p : Pipeline) (s : PipelineStep) (r : StepResult) :
    (applyResult p s r).steps = (storeResult p s.step_id r).steps := by
  unfold applyResult
  cases r.warnings <;> rfl

/-- The state reached by a sequence of registrations: the original steps
followed by the new steps, with the next-id counter advanced once per
registration. -/
theorem foldAdd_spec :
    ∀ (specs : List AddSpec) (p : Pipeline),
    (foldAdd p specs).steps = p.steps ++ newStepsFrom p.next_id specs
    ∧ (foldAdd p specs).next_id = p.next_id + specs.length := by
  intro specs
  induction specs with
  | nil => intro p; simp [foldAdd, newStepsFrom]
  | cons sp rest ih =>
    intro p
    have h := ih (add_step_func p sp.func sp.tags sp.kwargs)
    constructor
    · rw [foldAdd, h.1]
      simp [add_step_func, newStepsFrom]
    · rw [foldAdd, h.2]
      simp [add_step_func]
      omega

/-- The ids of the steps appended by a sequence of registrations are the
consecutive counter values. -/
theorem newStepsFrom_ids :
    ∀ (specs : List AddSpec) (n : Nat),
    (newStepsFrom n specs).map PipelineStep.step_id
      = List.range' n specs.length := by
  intro specs
  induction specs with
  | nil => intro n; simp [newStepsFrom]
  | cons sp rest ih =>
    intro n
    rw [newStepsFrom, List.map_cons, List.length_cons, List.range'_succ, ih]

/-! ## Claim theorems -/

/-- Claim C9: `str_2_bool` returns `True` when the lower-cased input is a
prefix of `true` or of `yes`; otherwise it returns `False` when the
lower-cased input is a prefix of `false` or of `no`; it raises
`AstromaticError` for every other string; and, because the empty string
is a prefix of every word and the true/yes test comes first, the empty
string yields `True` rather than an error. -/
theorem str_2_bool_spec (s : String) :
    ((pyStartsWith "true" (pyLower s) || pyStartsWith "yes" (pyLower s)) = true →
      str_2_bool s = Except.ok true)
    ∧ ((pyStartsWith "true" (pyLower s) || pyStartsWith "yes" (pyLower s)) = false →
       (pyStartsWith "false" (pyLower s) || pyStartsWith "no" (pyLower s)) = true →
      str_2_bool s = Except.ok false)
    ∧ ((pyStartsWith "true" (pyLower s) || pyStartsWith "yes" (pyLower s)) = false →
       (pyStartsWith "false" (pyLower s) || pyStartsWith "no" (pyLower s)) = false →
      ∃ msg, str_2_bool s = Except.error msg)
    ∧ str_2_bool "" = Except.ok true := by
  refine ⟨?_, ?_, ?_, by rfl⟩
  · intro h
    simp [str_2_bool, h]
  · intro h1 h2
    simp [str_2_bool, h1, h2]
  · intro h1 h2
    refine ⟨"'" ++ s ++ "' did not match a boolean expression " ++
      " (true/false, yes/no, t/f, y/n)", ?_⟩
    simp [str_2_bool, h1, h2]

/-- Witness for C9, at the test-suite's input `nO`. -/
theorem str_2_bool_spec_witness : str_2_bool "nO" = Except.ok false :=
  (str_2_bool_spec "nO").2.1 (by decide) (by decide)

/-- Claim C8 (failing input): `check_path` ignores its `auto_create`
parameter entirely.  With the path missing and `auto_create = true` the
outcome still depends on the interactive answer — `y` creates the path
while `n` raises `AstromaticError` — contradicting both the claim and
the function's own docstring; and the result is invariant under flipping
`auto_create`. -/
theorem check_path_ignores_auto_create :
    check_path "temp" false true ["y"] = CheckPathResult.ok true
    ∧ check_path "temp" false true ["n"]
        = CheckPathResult.err "temp does not exist"
    ∧ check_path "temp" false true ["y"] ≠ check_path "temp" false true ["n"]
    ∧ ∀ (pth : String) (e ac : Bool) (ans : List String),
        check_path pth e ac ans = check_path pth e (!ac) ans := by
  refine ⟨by rfl, by rfl, by decide, ?_⟩
  intro pth e ac ans
  rfl

/-- Claim C10: saving a table as LDAC and reading frame 1 back returns
the table; the converted HDU list has the primary HDU at index 0, the
`LDAC_IMHEAD` header echo at index 1 and the `LDAC_OBJECTS` data at
index 2; and `get_table_from_ldac` doubles every positive frame index,
reading HDU `2*n` for frame `n`. -/
theorem ldac_round_trip (tbl : Table) :
    get_table_from_ldac (save_table_as_ldac tbl) 1 = some tbl
    ∧ (convert_table_to_ldac tbl).get? 0 = some HDU.primary
    ∧ (convert_table_to_ldac tbl).get? 1
        = some (HDU.bintable
            ⟨some "LDAC_IMHEAD", headerCardsOf tbl, ⟨["Field Header Card"], []⟩⟩)
    ∧ (convert_table_to_ldac tbl).get? 2
        = some (HDU.bintable ⟨some "LDAC_OBJECTS", headerCardsOf tbl, tbl⟩)
    ∧ ∀ (hdus : List HDU) (n : Int), 0 < n →
        get_table_from_ldac hdus n = read_fits_table hdus (2 * n) := by
  refine ⟨rfl, rfl, rfl, rfl, ?_⟩
  intro hdus n hn
  simp only [get_table_from_ldac]
  rw [if_pos hn, Int.mul_comm]

/-- Witness for C10, at a concrete catalog table and frame 1. -/
theorem ldac_round_trip_witness :
    get_table_from_ldac (save_table_as_ldac tdemo) 1
      = read_fits_table (save_table_as_ldac tdemo) 2 := by
  have h := (ldac_round_trip tdemo).2.2.2.2 (save_table_as_ldac tdemo) 1 (by decide)
  simpa using h

/-- Claim C6: the command built for tool `sex`, file `test.fits`, config
file `cfg` and the four-entry insertion-ordered mapping of the test-suite
is exactly the expected token sequence (and joined command line); in
general every configuration entry is serialized as `-<KEY> <value>` in
the mapping's insertion order, and boolean values are emitted as the
tokens `Y`/`N`, never as the source boolean tokens. -/
theorem build_cmd_spec :
    build_cmd "sex" ["test.fits"] (some "cfg")
      [("CATALOG_NAME", ConfigVal.str "test.fits"),
       ("CATALOG_TYPE", ConfigVal.str "FITS_LDAC"),
       ("PARAMETERS_NAME", ConfigVal.str "default.path"),
       ("FILTER", ConfigVal.boolean false)]
      = ["sex", "test.fits", "-c", "cfg", "-CATALOG_NAME", "test.fits",
         "-CATALOG_TYPE", "FITS_LDAC", "-PARAMETERS_NAME", "default.path",
         "-FILTER", "N"]
    ∧ " ".intercalate (build_cmd "sex" ["test.fits"] (some "cfg")
        [("CATALOG_NAME", ConfigVal.str "test.fits"),
         ("CATALOG_TYPE", ConfigVal.str "FITS_LDAC"),
         ("PARAMETERS_NAME", ConfigVal.str "default.path"),
         ("FILTER", ConfigVal.boolean false)])
      = "sex test.fits -c cfg -CATALOG_NAME test.fits -CATALOG_TYPE " ++
        "FITS_LDAC -PARAMETERS_NAME default.path -FILTER N"
    ∧ (∀ (cmd : String) (files : List String) (cf : Option String)
         (config : List (String × ConfigVal)) (k : String) (v : ConfigVal),
        (k, v) ∈ config →
        ∃ pre post, build_cmd cmd files cf config
          = pre ++ ["-" ++ k, serialize_val v] ++ post)
    ∧ (∀ b : Bool, (serialize_val (ConfigVal.boolean b)
          = if b then "Y" else "N")
        ∧ serialize_val (ConfigVal.boolean b) ≠ "True"
        ∧ serialize_val (ConfigVal.boolean b) ≠ "False")
    ∧ (∀ (cmd : String) (files : List String) (cf : Option String)
         (config : List (String × ConfigVal)),
        (build_cmd cmd files cf config).drop
            (1 + files.length + (match cf with | some _ => 2 | none => 0))
          = config.flatMap (fun kv => ["-" ++ kv.1, serialize_val kv.2])) := by
  refine ⟨by decide, by decide, ?_, ?_, ?_⟩
  · intro cmd files cf config k v hmem
    obtain ⟨pre, post, hsplit⟩ :=
      flatMap_mem_split (fun kv => ["-" ++ kv.1, serialize_val kv.2])
        config (k, v) hmem
    refine ⟨[cmd] ++ files ++
      (match cf with | some c => ["-c", c] | none => []) ++ pre, post, ?_⟩
    simp [build_cmd, hsplit]
  · intro b
    refine ⟨rfl, ?_, ?_⟩ <;> cases b <;> simp [serialize_val]
  · intro cmd files cf config
    cases cf with
    | none =>
      show ([cmd] ++ files ++ [] ++ _).drop (1 + files.length + 0) = _
      refine List.drop_left' ?_
      simp [List.length_append]
      omega
    | some c =>
      show ([cmd] ++ files ++ ["-c", c] ++ _).drop (1 + files.length + 2) = _
      refine List.drop_left' ?_
      simp [List.length_append]
      omega

/-- Witness for C6: the `FILTER` entry of the example mapping appears on
the command line as the token pair `-FILTER N`. -/
theorem build_cmd_spec_witness :
    ∃ pre post,
      build_cmd "sex" ["test.fits"] (some "cfg")
        [("CATALOG_NAME", ConfigVal.str "test.fits"),
         ("CATALOG_TYPE", ConfigVal.str "FITS_LDAC"),
         ("PARAMETERS_NAME", ConfigVal.str "default.path"),
         ("FILTER", ConfigVal.boolean false)]
        = pre ++ ["-FILTER", "N"] ++ post := by
  have h := build_cmd_spec.2.2.1 "sex" ["test.fits"] (some "cfg")
    [("CATALOG_NAME", ConfigVal.str "test.fits"),
     ("CATALOG_TYPE", ConfigVal.str "FITS_LDAC"),
     ("PARAMETERS_NAME", ConfigVal.str "default.path"),
     ("FILTER", ConfigVal.boolean false)]
    "FILTER" (ConfigVal.boolean false) (by simp)
  simpa using h

/-- Claim C1: with both tolerance flags set (so that no halt cuts the
run short), `Pipeline.run` executes exactly the steps selected by the
tag predicate, in order; the predicate holds iff (`run_tags` is empty or
some step tag is in `run_tags`) and no step tag is in `ignore_tags`; in
particular a step tagged `A`,`B` is selected for `run_tags = [A]`, not
selected for `ignore_tags = [A]`, and not selected for
`ignore_tags = [A, B]` even though `run_tags = [B]`. -/
theorem run_executes_iff_selected (p : Pipeline) (rt it : List String) :
    (run rt it true true p).executed
        = (p.steps.filter (selectStep rt it)).map PipelineStep.step_id
    ∧ (∀ s : PipelineStep, selectStep rt it s = true ↔
        ((rt = [] ∨ ∃ t ∈ s.tags, t ∈ rt) ∧ ∀ t ∈ s.tags, t ∉ it))
    ∧ selectStep ["A"] [] demoStep = true
    ∧ selectStep [] ["A"] demoStep = false
    ∧ selectStep ["B"] ["A", "B"] demoStep = false := by
  refine ⟨?_, ?_, by decide, by decide, by decide⟩
  · show (runLoop true true _ [] [] _).executed = _
    rw [runLoop_executed_all]
    simp
  · intro s
    simp [selectStep, List.isEmpty_iff, List.any_eq_true]

/-- Witness for C1: the tagged demo pipeline runs its single step when
`run_tags = [A]`. -/
theorem run_executes_iff_selected_witness :
    (run ["A"] [] true true demoPipe).executed = [0] := by
  have h := (run_executes_iff_selected demoPipe ["A"] []).1
  rw [h]
  decide

/-- Claim C2: when errors are not ignored and the current selected step
returns a result with status `error`, the engine stops at once: the run
reports `haltedOnError` carrying that result and all warnings
accumulated so far, the failing step's result is stored, exactly one
final checkpoint is written, the failing step is the last executed, and
the stored results of every later selected step are untouched. -/
theorem run_halted_on_error (iex : Bool) (p : Pipeline)
    (ckpts : List Pipeline) (ex : List Nat) (s : PipelineStep)
    (rest : List PipelineStep) (r : StepResult)
    (hf : s.func (infoOf p) s.step_id s.func_kwargs = StepOutcome.ok r)
    (herr : r.status = Status.error) :
    runLoop false iex p ckpts ex (s :: rest)
        = ⟨applyResult p s r,
           RunOutcome.haltedOnError r (applyResult p s r).run_warnings,
           ckpts ++ [applyResult p s r], ex ++ [s.step_id]⟩
    ∧ ∀ s2 ∈ rest, s2.step_id ≠ s.step_id →
        stepResults (runLoop false iex p ckpts ex (s :: rest)).pipe s2.step_id
          = stepResults p s2.step_id := by
  have hexec : execStep false iex p s
      = (applyResult p s r,
         some (RunOutcome.haltedOnError r (applyResult p s r).run_warnings)) := by
    simp [execStep, hf, herr]
  have h1 : runLoop false iex p ckpts ex (s :: rest)
      = ⟨applyResult p s r,
         RunOutcome.haltedOnError r (applyResult p s r).run_warnings,
         ckpts ++ [applyResult p s r], ex ++ [s.step_id]⟩ := by
    simp [runLoop, hexec]
  refine ⟨h1, ?_⟩
  intro s2 _ hne
  rw [h1]
  show stepResults (applyResult p s r) s2.step_id = stepResults p s2.step_id
  unfold stepResults
  rw [applyResult_steps, storeResult_steps]
  exact find_results_upd_ne s2.step_id s.step_id r hne p.steps

/-- Witness for C2: a two-step pipeline whose first step errors halts
with only the first step executed. -/
theorem run_halted_on_error_witness :
    (runLoop false false haltPipe [] [] [errStep, afterStep]).executed = [7]
    ∧ (runLoop false false haltPipe [] [] [errStep, afterStep]).outcome
        = RunOutcome.haltedOnError errResult none := by
  have h := run_halted_on_error false haltPipe [] [] errStep [afterStep]
    errResult rfl rfl
  rw [h.1]
  exact ⟨rfl, rfl⟩

/-- Claim C3: every step transition of the run loop writes a checkpoint:
processing a step appends the transition's full pipeline snapshot to the
checkpoint trace (all later writes overwrite it in order), exactly one
checkpoint is written per executed step, and when the step returned a
structured result the serialized snapshot holds that result stored on
the step. -/
theorem run_checkpoint_invariant (ie iex : Bool) (p : Pipeline)
    (ckpts : List Pipeline) (ex : List Nat) (s : PipelineStep)
    (rest : List PipelineStep) :
    (∃ tail, (runLoop ie iex p ckpts ex (s :: rest)).checkpoints
        = ckpts ++ (execStep ie iex p s).1 :: tail)
    ∧ (∀ rem, (runLoop ie iex p ckpts ex rem).checkpoints.length + ex.length
        = (runLoop ie iex p ckpts ex rem).executed.length + ckpts.length)
    ∧ (∀ (r : StepResult) (q : Option StepResult),
        s.func (infoOf p) s.step_id s.func_kwargs = StepOutcome.ok r →
        stepResults p s.step_id = some q →
        stepResults (execStep ie iex p s).1 s.step_id = some (some r)) := by
  refine ⟨?_, fun rem => runLoop_ckpt_length ie iex rem p ckpts ex, ?_⟩
  · cases hn : (execStep ie iex p s).2 with
    | some o =>
      exact ⟨[], by simp [runLoop, hn]⟩
    | none =>
      obtain ⟨tail, htail⟩ := runLoop_checkpoints_extend ie iex rest
        (execStep ie iex p s).1 (ckpts ++ [(execStep ie iex p s).1])
        (ex ++ [s.step_id])
      exact ⟨tail, by simp [runLoop, hn, htail]⟩
  · intro r q hf hq
    have hself : stepResults (applyResult p s r) s.step_id = some (some r) := by
      have hsteps : stepResults (applyResult p s r) s.step_id
          = stepResults (storeResult p s.step_id r) s.step_id := by
        unfold stepResults
        rw [applyResult_steps]
      rw [hsteps]
      exact stepResults_store_self p s.step_id r q hq
    unfold execStep
    rw [hf]
    by_cases hcond : (r.status == Status.error && !ie) = true
    · simp only [hcond, if_true]
      exact hself
    · simp only [hcond, if_false]
      exact hself

/-- Witness for C3: the single-step demo run writes exactly the
transition checkpoint, which stores the step's result. -/
theorem run_checkpoint_invariant_witness :
    stepResults (execStep true true ckptPipe okStep).1 5 = some (some okResult)
    ∧ (runLoop true true ckptPipe [] [] [okStep]).checkpoints.length
        = (runLoop true true ckptPipe [] [] [okStep]).executed.length := by
  have h := run_checkpoint_invariant true true ckptPipe [] [] okStep []
  refine ⟨h.2.2 okResult none rfl rfl, ?_⟩
  have h2 := h.2.1 [okStep]
  simp only [List.length_nil] at h2
  omega

/-- Claim C7: a step result carrying a warnings sub-table appends its
rows to the pipeline's accumulated warnings table, each row tagged with
the originating filename and the producing step's id; a result without
warnings leaves the accumulated table unchanged; and the engine's step
transition carries exactly this accumulated table. -/
theorem run_warnings_appended (p : Pipeline) (s : PipelineStep)
    (r : StepResult) :
    (r.warnings = none → (applyResult p s r).run_warnings = p.run_warnings)
    ∧ (∀ w, r.warnings = some w →
        (applyResult p s r).run_warnings
          = some (p.run_warnings.getD []
              ++ tagWarnings r.filename s.step_id w))
    ∧ (∀ ie iex, s.func (infoOf p) s.step_id s.func_kwargs = StepOutcome.ok r →
        (execStep ie iex p s).1.run_warnings
          = (applyResult p s r).run_warnings) := by
  refine ⟨?_, ?_, ?_⟩
  · intro h
    simp [applyResult, h, storeResult]
  · intro w h
    have hstore : (storeResult p s.step_id r).run_warnings = p.run_warnings := rfl
    simp only [applyResult, h]
    rw [hstore]
    cases hw : p.run_warnings with
    | none => simp [vstackWarnings, hw]
    | some ws => simp [vstackWarnings, hw]
  · intro ie iex hf
    unfold execStep
    rw [hf]
    by_cases hcond : (r.status == Status.error && !ie) = true
    · simp [hcond]
    · simp [hcond]

/-- Witness for C7: the demo warnings step appends its two rows, tagged
with `img.fits` and step id 3. -/
theorem run_warnings_appended_witness :
    (applyResult warnPipe warnStep warnResult).run_warnings
      = some [⟨"w1", "img.fits", 3⟩, ⟨"w2", "img.fits", 3⟩] := by
  have h := (run_warnings_appended warnPipe warnStep warnResult).2.1
    ["w1", "w2"] rfl
  rw [h]
  rfl

/-- Claim C4: over any sequence of registrations, the ids assigned to
the newly registered steps are the consecutive counter values — so they
are pairwise strictly increasing in registration order and never reused
— while previously registered steps are untouched; each single
registration hands the current next-id value to the new step and
increments the counter by one. -/
theorem add_step_ids (p : Pipeline) (specs : List AddSpec) :
    (foldAdd p specs).steps.take p.steps.length = p.steps
    ∧ ((foldAdd p specs).steps.drop p.steps.length).map PipelineStep.step_id
        = List.range' p.next_id specs.length
    ∧ (((foldAdd p specs).steps.drop p.steps.length).map
        PipelineStep.step_id).Pairwise (· < ·)
    ∧ (((foldAdd p specs).steps.drop p.steps.length).map
        PipelineStep.step_id).Nodup
    ∧ (foldAdd p specs).next_id = p.next_id + specs.length
    ∧ ∀ (f : StepFunc) (tags : List String) (kw : Kwargs),
        (add_step_func p f tags kw).steps
            = p.steps ++ [⟨f, p.next_id, tags, kw, none⟩]
        ∧ (add_step_func p f tags kw).next_id = p.next_id + 1 := by
  have h := foldAdd_spec specs p
  have hids : ((foldAdd p specs).steps.drop p.steps.length).map
      PipelineStep.step_id = List.range' p.next_id specs.length := by
    rw [h.1, List.drop_left]
    exact newStepsFrom_ids specs p.next_id
  refine ⟨?_, hids, ?_, ?_, h.2, ?_⟩
  · rw [h.1, List.take_left]
  · rw [hids]
    exact List.pairwise_lt_range' p.next_id specs.length
  · rw [hids]
    exact List.nodup_range' p.next_id specs.length
  · intro f tags kw
    exact ⟨rfl, rfl⟩

/-- Claim C5: `add_step` registers a raw callable as passed; a string
naming a known built-in tool resolves to that tool's built-in runner;
and a string that is not a known tool name raises `PipelineError` and
registers no step. -/
theorem add_step_dispatch (p : Pipeline) (tags : List String) (kw : Kwargs) :
    (∀ f, add_step p (FuncArg.callable f) tags kw
        = Except.ok (add_step_func p f tags kw))
    ∧ (∀ s, codes.contains s = true →
        add_step p (FuncArg.name s) tags kw
          = Except.ok (add_step_func p (builtinRunner s) tags kw))
    ∧ (∀ s, codes.contains s = false →
        (∃ e, add_step p (FuncArg.name s) tags kw = Except.error e)
        ∧ ∀ q, add_step p (FuncArg.name s) tags kw ≠ Except.ok q) := by
  refine ⟨fun f => rfl, ?_, ?_⟩
  · intro s hs
    have hs2 : s ∈ codes := by simpa using hs
    simp [add_step, resolve_func, hs2]
  · intro s hs
    have hs2 : s ∉ codes := by simpa using hs
    constructor
    · refine ⟨"You must either pass a function for the pipeline " ++
        "to run or the name of an astromatic code", ?_⟩
      simp [add_step, resolve_func, hs2]
    · intro q
      simp [add_step, resolve_func, hs2]

/-- Witness for C5: the known name `SCAMP` resolves to its runner, the
unknown name `sextractor` (tool names are exact) is rejected. -/
theorem add_step_dispatch_witness :
    add_step emptyPipeline (FuncArg.name "SCAMP") [] []
        = Except.ok (add_step_func emptyPipeline (builtinRunner "SCAMP") [] [])
    ∧ ∀ q, add_step emptyPipeline (FuncArg.name "sextractor") [] []
        ≠ Except.ok q := by
  refine ⟨(add_step_dispatch emptyPipeline [] []).2.1 "SCAMP" (by decide), ?_⟩
  exact ((add_step_dispatch emptyPipeline [] []).2.2 "sextractor" (by decide)).2
